import Mathlib

/-!
Verification of the preview-segment recorder (src/frigate/output/preview.py).

The embedding below translates the module's data and control flow into Lean:

* timestamps (Python floats holding seconds) are modelled as rationals;
* `shouldWriteFrame`, `writeData` embed `PreviewRecorder.should_write_frame`
  and `PreviewRecorder.write_data`, with the mutable recorder object made an
  explicit `PreviewRecorder` state record;
* `FFMpegConverter.run` embeds the encoder task: the concat playlist it feeds
  to the external encoder is `buildPlaylist`, the result row it puts on the
  inter-process queue is `PreviewInsert`, the cache-file unlink loop is
  `unlinkAll` over an explicit store of (camera, timestamp) keyed files, and a
  Python `IndexError` raised by an out-of-range list access is `Except.error`;
* cache file paths and output paths are deterministic functions of the camera
  name and timestamps, so a cached frame file is identified by its
  (camera, timestamp) key.
-/

/-- Constant `SUMMARY_OUTPUT_FPS = 1` from the source module. -/
def SUMMARY_OUTPUT_FPS : ℚ := 1

/-- Constant `SUMMARY_SEGMENT_DURATION = 30` from the source module. -/
def SUMMARY_SEGMENT_DURATION : ℚ := 30

/-- One entry of `current_tracked_objects`: the fields the module reads are
`o["current_zones"]` (a list of zone names) and `o["stationary"]` (a bool). -/
structure TrackedObject where
  current_zones : List String
  stationary : Bool

/-- The mutable state of a `PreviewRecorder` instance: `self.start_time`,
`self.last_output_time` and `self.output_frames`. -/
structure PreviewRecorder where
  start_time : ℚ
  last_output_time : ℚ
  output_frames : List ℚ
deriving DecidableEq

/-- Initial recorder state: `PreviewRecorder.__init__` sets `start_time = 0`,
`last_output_time = 0` and `output_frames = []`. -/
def initialState : PreviewRecorder :=
  { start_time := 0, last_output_time := 0, output_frames := [] }

/-- Embedding of `PreviewRecorder.should_write_frame`: the decision together with
the recorder state after the call (the only field the method writes is
`last_output_time`). -/
def shouldWriteFrame (s : PreviewRecorder) (current_tracked_objects : List TrackedObject)
    (motion_boxes : List (List Int)) (frame_time : ℚ) : Bool × PreviewRecorder :=
  -- limit output to 1 fps
  if frame_time - s.last_output_time < 1 / SUMMARY_OUTPUT_FPS then
    (false, s)
  -- send frame if a non-stationary object is in a zone
  else if current_tracked_objects.any fun o =>
      decide (0 < o.current_zones.length) && !o.stationary then
    (true, { s with last_output_time := frame_time })
  -- motion box parity heuristic
  else if motion_boxes.length % 2 = 1 then
    (true, { s with last_output_time := frame_time })
  else
    (false, s)

/-- The observable effect of one `PreviewRecorder.write_data` call: the
recorder state after the call, whether `should_write_frame` admitted the
frame, the timestamps written to the frame cache during the call, and the
`frame_times` list handed to a freshly started `FFMpegConverter` when the
window closed (`none` when no converter was started). -/
structure WriteEffect where
  state : PreviewRecorder
  admitted : Bool
  cached : List ℚ
  handed : Option (List ℚ)
deriving DecidableEq

/-- Embedding of `PreviewRecorder.write_data`:
set `start_time` on the first frame (sentinel `start_time == 0`), consult
`should_write_frame` and append/cache the frame when admitted, then on
`frame_time - start_time > SUMMARY_SEGMENT_DURATION` append the current frame
once more, hand `output_frames` to an `FFMpegConverter`, and reset
`start_time` to `frame_time` and `output_frames` to `[]`. -/
def writeData (s : PreviewRecorder) (current_tracked_objects : List TrackedObject)
    (motion_boxes : List (List Int)) (frame_time : ℚ) : WriteEffect :=
  let s0 := if s.start_time = 0 then { s with start_time := frame_time } else s
  let r := shouldWriteFrame s0 current_tracked_objects motion_boxes frame_time
  let s1 :=
    if r.1 then { r.2 with output_frames := r.2.output_frames ++ [frame_time] } else r.2
  let cached0 : List ℚ := if r.1 then [frame_time] else []
  if SUMMARY_SEGMENT_DURATION < frame_time - s1.start_time then
    { state := { s1 with start_time := frame_time, output_frames := [] },
      admitted := r.1,
      cached := cached0 ++ [frame_time],
      handed := some (s1.output_frames ++ [frame_time]) }
  else
    { state := s1, admitted := r.1, cached := cached0, handed := none }

/-- One frame delivery: the arguments of a `write_data` call. -/
structure FrameInput where
  objs : List TrackedObject
  boxes : List (List Int)
  time : ℚ

/-- The recorder state after one `write_data` call. -/
def stepState (s : PreviewRecorder) (i : FrameInput) : PreviewRecorder :=
  (writeData s i.objs i.boxes i.time).state

/-- The recorder state after a sequence of `write_data` calls. -/
def processTrace (s : PreviewRecorder) (tr : List FrameInput) : PreviewRecorder :=
  tr.foldl stepState s

/-- The timestamps of the frames admitted by `should_write_frame` across a
sequence of `write_data` calls, in delivery order. -/
def admittedList (s : PreviewRecorder) : List FrameInput → List ℚ
  | [] => []
  | i :: rest =>
      (if (writeData s i.objs i.boxes i.time).admitted then [i.time] else []) ++
        admittedList (stepState s i) rest

/-- An `FFMpegConverter` instance: its camera name and its `frame_times`. -/
structure FFMpegConverter where
  camera : String
  frame_times : List ℚ

/-- One line of the concat playlist piped to the encoder: either a
`file <cache path of (camera, t)>` line or a `duration <d>` line.  The cache
path is the deterministic function
`CACHE_DIR/preview_frames/preview_<camera>-<t>.jpg` of the pair carried
here. -/
inductive PlaylistEntry where
  | file (camera : String) (t : ℚ)
  | duration (d : ℚ)
deriving DecidableEq

/-- The playlist loop of `FFMpegConverter.run`: starting from
`last = frame_times[0]`, each timestamp `t` contributes a `file` line and a
`duration (t - last)` line, and `last` becomes `t`. -/
def playlistLoop (camera : String) (last : ℚ) : List ℚ → List PlaylistEntry
  | [] => []
  | t :: ts =>
      PlaylistEntry.file camera t :: PlaylistEntry.duration (t - last) ::
        playlistLoop camera t ts

/-- The full playlist built by `FFMpegConverter.run` for a non-empty
`frame_times = t0 :: rest`: the loop output followed by one more `file` line
for `frame_times[-1]` with no duration. -/
def buildPlaylist (camera : String) (t0 : ℚ) (rest : List ℚ) : List PlaylistEntry :=
  playlistLoop camera t0 (t0 :: rest) ++
    [PlaylistEntry.file camera (rest.getLastD t0)]

/-- The f-string `"<end>-<start>"` used as the `Previews.id` value. -/
def previewId (e s : ℚ) : String :=
  toString e ++ "-" ++ toString s

/-- The f-string `CLIPS_DIR/previews/<camera>/<t0>-<tLast>.mp4` computed in
`FFMpegConverter.__init__` (relative to `CLIPS_DIR`). -/
def clipsPath (camera : String) (t0 tLast : ℚ) : String :=
  "previews/" ++ camera ++ "/" ++ toString t0 ++ "-" ++ toString tLast ++ ".mp4"

/-- The row put on the inter-process queue by `FFMpegConverter.run` on
encoder success (the `INSERT_PREVIEW` payload). -/
structure PreviewInsert where
  id : String
  camera : String
  path : String
  start_time : ℚ
  end_time : ℚ
  duration : ℚ
deriving DecidableEq

/-- The cache-file store: the set of existing cached frame files, each
identified by its (camera, timestamp) key. -/
abbrev CacheStore : Type := List (String × ℚ)

/-- The unlink loop at the end of `FFMpegConverter.run`: for each `t` in
`frame_times`, `Path(<cache path of (camera, t)>).unlink(missing_ok=True)`.
Removal is a total operation on the store, so a missing file is not an
error. -/
def unlinkAll (camera : String) (ts : List ℚ) (store : CacheStore) : CacheStore :=
  ts.foldl (fun st t => st.filter fun p => !(decide (p.1 = camera) && decide (p.2 = t))) store

/-- Embedding of `FFMpegConverter.run`, given the external encoder's exit code and the
cache store.  `Except.error ()` models a Python `IndexError` escaping the
thread: `frame_times[0]` on an empty list (line 56, and already in
`__init__`), or `frame_times[1]` on a singleton list (line 79) — in the
latter case the result row and the unlink loop are both skipped, exactly as
in the source, where the exception aborts the thread before lines 83 and
100. -/
def FFMpegConverter.run (c : FFMpegConverter) (returncode : Int)
    (store : CacheStore) : Except Unit (Option PreviewInsert × CacheStore) :=
  match c.frame_times with
  | [] => Except.error ()
  | t0 :: rest =>
      let _playlist := buildPlaylist c.camera t0 rest
      match rest with
      | [] => Except.error ()
      | t1 :: _ =>
          let ins : Option PreviewInsert :=
            if returncode = 0 then
              some { id := previewId t1 t0,
                     camera := c.camera,
                     path := clipsPath c.camera t0 (rest.getLastD t0),
                     start_time := t0,
                     end_time := t1,
                     duration := t1 - t0 }
            else none
          Except.ok (ins, unlinkAll c.camera c.frame_times store)

/-- Spec-side pairing of each timestamp with the duration of the interval it
closes: `withDiffs prev [t1, ..., tn] = [(t1, t1 - prev), (t2, t2 - t1), ...]`. -/
def withDiffs (prev : ℚ) : List ℚ → List (ℚ × ℚ)
  | [] => []
  | t :: ts => (t, t - prev) :: withDiffs t ts

/-- Spec-side playlist shape: each (timestamp, duration) pair becomes a
`file` line immediately followed by its `duration` line. -/
def playlistOfPairs (camera : String) : List (ℚ × ℚ) → List PlaylistEntry
  | [] => []
  | (t, d) :: ps =>
      PlaylistEntry.file camera t :: PlaylistEntry.duration d ::
        playlistOfPairs camera ps

/-- The duration values of a playlist, in order. -/
def durationsOf : List PlaylistEntry → List ℚ
  | [] => []
  | PlaylistEntry.duration d :: es => d :: durationsOf es
  | PlaylistEntry.file _ _ :: es => durationsOf es

/-- The timestamps of the `file` lines of a playlist, in order. -/
def fileTimesOf : List PlaylistEntry → List ℚ
  | [] => []
  | PlaylistEntry.duration _ :: es => fileTimesOf es
  | PlaylistEntry.file _ t :: es => t :: fileTimesOf es

/-- The spec's fixed target output rate: `targetFps` is fixed at 1. -/
def targetFps : ℚ := 1

/-- The reference Admission Policy, written from the spec's rules, evaluated
in order, first match governs: (1) rate limit
`frameTime - lastAdmissionTime < 1/targetFps` rejects; (2) a tracked object
with a non-empty zone set and `stationary` false admits; (3) an odd count of
motion regions admits; (4) otherwise reject. -/
def referenceAdmission (lastAdmissionTime : ℚ) (trackedObjects : List TrackedObject)
    (motionBoxes : List (List Int)) (frameTime : ℚ) : Bool :=
  if frameTime - lastAdmissionTime < 1 / targetFps then false
  else if trackedObjects.any fun o =>
      decide (0 < o.current_zones.length) && !o.stationary then true
  else if motionBoxes.length % 2 = 1 then true
  else false

/-- Invariant carried through a non-decreasing frame trace: the open window's
buffer is sorted, bounded below by the window start, bounded above by every
frame still to come, empty while the start sentinel is unset, the start time
is a lower bound of every frame still to come unless unset, and the rate
limiter state is non-negative. -/
def BufferInv (s : PreviewRecorder) (future : List FrameInput) : Prop :=
  s.output_frames.Sorted (· ≤ ·) ∧
    (∀ x ∈ s.output_frames, s.start_time ≤ x) ∧
    (∀ x ∈ s.output_frames, ∀ i ∈ future, x ≤ i.time) ∧
    (s.start_time = 0 → s.output_frames = []) ∧
    (s.start_time = 0 ∨ ∀ i ∈ future, s.start_time ≤ i.time) ∧
    0 ≤ s.last_output_time

theorem swf_snd_start (s : PreviewRecorder) (o : List TrackedObject)
    (b : List (List Int)) (t : ℚ) :
    (shouldWriteFrame s o b t).2.start_time = s.start_time := by
  unfold shouldWriteFrame
  split_ifs <;> rfl

theorem swf_snd_frames (s : PreviewRecorder) (o : List TrackedObject)
    (b : List (List Int)) (t : ℚ) :
    (shouldWriteFrame s o b t).2.output_frames = s.output_frames := by
  unfold shouldWriteFrame
  split_ifs <;> rfl

theorem swf_snd_last (s : PreviewRecorder) (o : List TrackedObject)
    (b : List (List Int)) (t : ℚ) :
    (shouldWriteFrame s o b t).2.last_output_time =
      if (shouldWriteFrame s o b t).1 then t else s.last_output_time := by
  unfold shouldWriteFrame
  split_ifs <;> simp_all

theorem swf_fst_start_irrel (s : PreviewRecorder) (v : ℚ) (o : List TrackedObject)
    (b : List (List Int)) (t : ℚ) :
    (shouldWriteFrame { s with start_time := v } o b t).1 =
      (shouldWriteFrame s o b t).1 := by
  unfold shouldWriteFrame
  split_ifs <;> rfl

theorem swf_true_rate (s : PreviewRecorder) (o : List TrackedObject)
    (b : List (List Int)) (t : ℚ)
    (h : (shouldWriteFrame s o b t).1 = true) :
    s.last_output_time + 1 ≤ t := by
  unfold shouldWriteFrame at h
  split_ifs at h with h1
  all_goals
    simp only [SUMMARY_OUTPUT_FPS, one_div_one] at h1
    linarith [h1]

theorem writeData_eq (s : PreviewRecorder) (o : List TrackedObject)
    (b : List (List Int)) (t : ℚ) :
    writeData s o b t =
      if SUMMARY_SEGMENT_DURATION < t - (if s.start_time = 0 then t else s.start_time) then
        { state :=
            { start_time := t,
              last_output_time :=
                if (shouldWriteFrame s o b t).1 then t else s.last_output_time,
              output_frames := [] },
          admitted := (shouldWriteFrame s o b t).1,
          cached := (if (shouldWriteFrame s o b t).1 then [t] else []) ++ [t],
          handed := some ((s.output_frames ++
            (if (shouldWriteFrame s o b t).1 then [t] else [])) ++ [t]) }
      else
        { state :=
            { start_time := if s.start_time = 0 then t else s.start_time,
              last_output_time :=
                if (shouldWriteFrame s o b t).1 then t else s.last_output_time,
              output_frames := s.output_frames ++
                (if (shouldWriteFrame s o b t).1 then [t] else []) },
          admitted := (shouldWriteFrame s o b t).1,
          cached := if (shouldWriteFrame s o b t).1 then [t] else [],
          handed := none } := by
  unfold writeData shouldWriteFrame
  dsimp only
  split_ifs <;> simp_all

theorem wd_admitted_eq (s : PreviewRecorder) (o : List TrackedObject)
    (b : List (List Int)) (t : ℚ) :
    (writeData s o b t).admitted = (shouldWriteFrame s o b t).1 := by
  rw [writeData_eq]
  split_ifs <;> rfl

theorem wd_last_eq (s : PreviewRecorder) (o : List TrackedObject)
    (b : List (List Int)) (t : ℚ) :
    (writeData s o b t).state.last_output_time =
      if (shouldWriteFrame s o b t).1 then t else s.last_output_time := by
  rw [writeData_eq]
  split_ifs <;> rfl

/-- C2: `should_write_frame` equals the reference admission policy evaluated
in the spec's rule order, admission sets `last_output_time` to `frame_time`,
and rejection leaves all recorder state unchanged. -/
theorem shouldWriteFrame_matches_reference (s : PreviewRecorder)
    (objs : List TrackedObject) (boxes : List (List Int)) (t : ℚ) :
    (shouldWriteFrame s objs boxes t).1 =
        referenceAdmission s.last_output_time objs boxes t ∧
      (shouldWriteFrame s objs boxes t).2 =
        if (shouldWriteFrame s objs boxes t).1 then
          { s with last_output_time := t }
        else s := by
  unfold shouldWriteFrame referenceAdmission targetFps SUMMARY_OUTPUT_FPS
  constructor
  · split_ifs <;> rfl
  · split_ifs <;> simp_all

/-- C6: `write_data` implements the window state machine: when
`start_time = 0` the first delivered frame sets `start_time = frame_time`
regardless of admission; the window closes (a converter is handed the
buffer) exactly when `frame_time - start_time > SUMMARY_SEGMENT_DURATION`;
and on close `start_time` is reset to the closing frame's timestamp and the
buffer is cleared. -/
theorem writeData_window_machine (s : PreviewRecorder) (objs : List TrackedObject)
    (boxes : List (List Int)) (t : ℚ) :
    (writeData s objs boxes t).state.start_time =
        (if SUMMARY_SEGMENT_DURATION < t - (if s.start_time = 0 then t else s.start_time)
          then t
          else if s.start_time = 0 then t else s.start_time) ∧
      ((writeData s objs boxes t).handed ≠ none ↔
        SUMMARY_SEGMENT_DURATION < t - (if s.start_time = 0 then t else s.start_time)) ∧
      (SUMMARY_SEGMENT_DURATION < t - (if s.start_time = 0 then t else s.start_time) →
        (writeData s objs boxes t).state.output_frames = []) := by
  rw [writeData_eq]
  split_ifs <;> simp_all

/-- C10: the forced admission at window close leaves `last_output_time`
unchanged: `write_data` updates `last_output_time` (to `frame_time`) exactly
when `should_write_frame` returns `true`, so the forced boundary frame
neither counts against nor is constrained by the 1/targetFps rate limit. -/
theorem writeData_close_leaves_rate_state (s : PreviewRecorder)
    (objs : List TrackedObject) (boxes : List (List Int)) (t : ℚ) :
    (writeData s objs boxes t).admitted = (shouldWriteFrame s objs boxes t).1 ∧
      (writeData s objs boxes t).state.last_output_time =
        (if (writeData s objs boxes t).admitted = true then t
         else s.last_output_time) := by
  refine ⟨wd_admitted_eq s objs boxes t, ?_⟩
  rw [wd_admitted_eq, wd_last_eq]

/-- C1 (amended): the `frame_times` list handed at window close always ends
with the closing frame's timestamp; its last two entries both equal that
timestamp when `should_write_frame` admitted the closing frame.  (The claim's
unconditional boundary duplication does not hold; see the counterexample.) -/
theorem writeData_handed_boundary (s : PreviewRecorder) (objs : List TrackedObject)
    (boxes : List (List Int)) (t : ℚ) (l : List ℚ)
    (h : (writeData s objs boxes t).handed = some l) :
    l.getLast? = some t ∧
      ((writeData s objs boxes t).admitted = true → ∃ l0, l = l0 ++ [t, t]) := by
  rw [writeData_eq] at h
  by_cases hcl :
      SUMMARY_SEGMENT_DURATION < t - (if s.start_time = 0 then t else s.start_time)
  · rw [if_pos hcl] at h
    simp only [Option.some.injEq] at h
    subst h
    rw [wd_admitted_eq]
    constructor
    · exact List.getLast?_concat _
    · intro ha
      refine ⟨s.output_frames, ?_⟩
      simp [ha]
  · rw [if_neg hcl] at h
    simp at h

/-- C1 (counterexample): deliver a frame at t=1 with one motion box (admitted)
and then a frame at t=32 with no motion (rejected); the window closes and the
list handed to the converter is [1, 32], whose second-to-last entry is 1, not
the closing timestamp 32 — so the handed list's last two entries are not both
the closing frame's timestamp. -/
theorem writeData_close_no_duplication_cex :
    (writeData (stepState initialState ⟨[], [[0]], 1⟩) [] [] 32).handed =
        some [(1 : ℚ), 32] ∧
      [(1 : ℚ), 32].dropLast.getLast? ≠ some (32 : ℚ) := by
  constructor
  · norm_num [stepState, writeData, shouldWriteFrame, initialState,
      SUMMARY_OUTPUT_FPS, SUMMARY_SEGMENT_DURATION]
  · norm_num

/-- C1 (witness for the amended claim): a window closing on an admitted frame
at t=32 hands [32, 32]. -/
theorem writeData_handed_boundary_witness :
    [(32 : ℚ), 32].getLast? = some 32 ∧
      ((writeData { start_time := 1, last_output_time := 0, output_frames := [] }
            [] [[0]] 32).admitted = true →
        ∃ l0, [(32 : ℚ), 32] = l0 ++ [32, 32]) :=
  writeData_handed_boundary
    { start_time := 1, last_output_time := 0, output_frames := [] }
    [] [[0]] 32 [32, 32]
    (by norm_num [writeData, shouldWriteFrame,
      SUMMARY_OUTPUT_FPS, SUMMARY_SEGMENT_DURATION])

/-- C9 (code bug): a 30-second window in which `should_write_frame` rejects
every frame (no tracked objects, an even motion-box count) hands a singleton
`frame_times` list to the converter, and `FFMpegConverter.run` on a singleton
list hits the out-of-range access `frame_times[1]` (modelled `Except.error`),
so it delivers no result and never reaches the cache cleanup loop. -/
theorem degenerate_window_crashes_converter :
    (writeData (stepState initialState ⟨[], [], 1⟩) [] [] 32).handed =
        some [(32 : ℚ)] ∧
      FFMpegConverter.run { camera := "cam", frame_times := [(32 : ℚ)] } 0 [] =
        Except.error () := by
  constructor
  · norm_num [stepState, writeData, shouldWriteFrame, initialState,
      SUMMARY_OUTPUT_FPS, SUMMARY_SEGMENT_DURATION]
  · rfl

theorem mem_unlinkAll (cam : String) (ts : List ℚ) (store : CacheStore)
    (p : String × ℚ) :
    p ∈ unlinkAll cam ts store ↔ p ∈ store ∧ ¬(p.1 = cam ∧ p.2 ∈ ts) := by
  induction ts generalizing store with
  | nil => simp [unlinkAll]
  | cons t ts ih =>
      simp only [unlinkAll, List.foldl_cons] at ih ⊢
      rw [ih]
      simp only [List.mem_filter, List.mem_cons, Bool.not_eq_eq_eq_not,
        Bool.not_true, Bool.and_eq_false_imp, decide_eq_true_eq,
        decide_eq_false_iff_not]
      constructor
      · rintro ⟨⟨hp, hne⟩, hnot⟩
        refine ⟨hp, ?_⟩
        rintro ⟨hc, ht | ht⟩
        · exact (hne hc) ht
        · exact hnot ⟨hc, ht⟩
      · rintro ⟨hp, hnot⟩
        refine ⟨⟨hp, fun hc ht => hnot ⟨by simpa using hc, Or.inl ht⟩⟩, ?_⟩
        rintro ⟨hc, ht⟩
        exact hnot ⟨hc, Or.inr ht⟩

/-- C3: on encoder success (exit code 0) `FFMpegConverter.run` delivers
exactly one result row with `start = frame_times[0]`,
`end = frame_times[1]` (the second entry), `duration = end - start` and id
`"<end>-<start>"`; on a non-zero exit code it delivers no result. -/
theorem run_result_on_exit (cam : String) (t0 t1 : ℚ) (ts : List ℚ) (rc : Int)
    (store : CacheStore) :
    FFMpegConverter.run { camera := cam, frame_times := t0 :: t1 :: ts } rc store =
      Except.ok
        ((if rc = 0 then
            some { id := previewId t1 t0,
                   camera := cam,
                   path := clipsPath cam t0 ((t1 :: ts).getLastD t0),
                   start_time := t0,
                   end_time := t1,
                   duration := t1 - t0 }
          else none),
         unlinkAll cam (t0 :: t1 :: ts) store) := rfl

/-- C5: `FFMpegConverter.run` on a well-formed (length ≥ 2) `frame_times`
list always completes with a store from which exactly the cached frames of
its own camera named in `frame_times` have been removed: every such file is
gone, removal is a total operation (a missing file is not an error), and any
file of another camera or another timestamp is untouched, whatever the exit
code. -/
theorem run_cleanup_scoped (cam : String) (t0 t1 : ℚ) (ts : List ℚ) (rc : Int)
    (store : CacheStore) :
    ∃ res store',
      FFMpegConverter.run { camera := cam, frame_times := t0 :: t1 :: ts } rc store =
          Except.ok (res, store') ∧
        (∀ t ∈ t0 :: t1 :: ts, (cam, t) ∉ store') ∧
        (∀ p : String × ℚ,
          p ∈ store' ↔ p ∈ store ∧ ¬(p.1 = cam ∧ p.2 ∈ t0 :: t1 :: ts)) := by
  refine ⟨_, unlinkAll cam (t0 :: t1 :: ts) store, rfl, ?_, ?_⟩
  · intro t ht
    rw [mem_unlinkAll]
    simp [ht]
  · intro p
    exact mem_unlinkAll cam (t0 :: t1 :: ts) store p

theorem playlistLoop_eq_pairs (cam : String) (last : ℚ) (ts : List ℚ) :
    playlistLoop cam last ts = playlistOfPairs cam (withDiffs last ts) := by
  induction ts generalizing last with
  | nil => rfl
  | cons t ts ih => simp [playlistLoop, withDiffs, playlistOfPairs, ih]

theorem durationsOf_append (xs ys : List PlaylistEntry) :
    durationsOf (xs ++ ys) = durationsOf xs ++ durationsOf ys := by
  induction xs with
  | nil => rfl
  | cons e xs ih => cases e <;> simp [durationsOf, ih]

theorem fileTimesOf_append (xs ys : List PlaylistEntry) :
    fileTimesOf (xs ++ ys) = fileTimesOf xs ++ fileTimesOf ys := by
  induction xs with
  | nil => rfl
  | cons e xs ih => cases e <;> simp [fileTimesOf, ih]

theorem durationsOf_pairs (cam : String) (ps : List (ℚ × ℚ)) :
    durationsOf (playlistOfPairs cam ps) = ps.map Prod.snd := by
  induction ps with
  | nil => rfl
  | cons p ps ih =>
      obtain ⟨t, d⟩ := p
      simp [playlistOfPairs, durationsOf, ih]

theorem fileTimesOf_pairs (cam : String) (ps : List (ℚ × ℚ)) :
    fileTimesOf (playlistOfPairs cam ps) = ps.map Prod.fst := by
  induction ps with
  | nil => rfl
  | cons p ps ih =>
      obtain ⟨t, d⟩ := p
      simp [playlistOfPairs, fileTimesOf, ih]

theorem withDiffs_fst (prev : ℚ) (ts : List ℚ) :
    (withDiffs prev ts).map Prod.fst = ts := by
  induction ts generalizing prev with
  | nil => rfl
  | cons t ts ih => simp [withDiffs, ih]

theorem withDiffs_snd_sum (prev : ℚ) (ts : List ℚ) :
    ((withDiffs prev ts).map Prod.snd).sum = ts.getLastD prev - prev := by
  induction ts generalizing prev with
  | nil => simp [withDiffs]
  | cons t ts ih =>
      simp only [withDiffs, List.map_cons, List.sum_cons, List.getLastD_cons, ih t]
      ring

theorem withDiffs_snd_nonneg (prev : ℚ) (ts : List ℚ)
    (h : List.Chain (· ≤ ·) prev ts) :
    ∀ d ∈ (withDiffs prev ts).map Prod.snd, 0 ≤ d := by
  induction ts generalizing prev with
  | nil => simp [withDiffs]
  | cons t ts ih =>
      rw [List.chain_cons] at h
      intro d hd
      simp only [withDiffs, List.map_cons, List.mem_cons] at hd
      rcases hd with rfl | hd
      · exact sub_nonneg.mpr h.1
      · exact ih t h.2 d hd

/-- C4: for a non-decreasing `frame_times` of length ≥ 2, the playlist built
by `FFMpegConverter.run` pairs each timestamp's `file` line with a following
`duration` line holding the difference to the previous timestamp (the first
pair's duration is `t0 - t0 = 0`, and no duration precedes the first `file`
line), then re-emits the final frame's `file` line once more with no
duration; every duration is non-negative and the durations sum to
`last - first`. -/
theorem buildPlaylist_structure (cam : String) (t0 t1 : ℚ) (ts : List ℚ)
    (hs : (t0 :: t1 :: ts).Sorted (· ≤ ·)) :
    buildPlaylist cam t0 (t1 :: ts) =
        playlistOfPairs cam (withDiffs t0 (t0 :: t1 :: ts)) ++
          [PlaylistEntry.file cam ((t1 :: ts).getLastD t0)] ∧
      (buildPlaylist cam t0 (t1 :: ts)).head? = some (PlaylistEntry.file cam t0) ∧
      fileTimesOf (buildPlaylist cam t0 (t1 :: ts)) =
        (t0 :: t1 :: ts) ++ [(t1 :: ts).getLastD t0] ∧
      (∀ d ∈ durationsOf (buildPlaylist cam t0 (t1 :: ts)), 0 ≤ d) ∧
      (durationsOf (buildPlaylist cam t0 (t1 :: ts))).sum =
        (t1 :: ts).getLastD t0 - t0 ∧
      (buildPlaylist cam t0 (t1 :: ts)).getLast? =
        some (PlaylistEntry.file cam ((t1 :: ts).getLastD t0)) := by
  have hshape : buildPlaylist cam t0 (t1 :: ts) =
      playlistOfPairs cam (withDiffs t0 (t0 :: t1 :: ts)) ++
        [PlaylistEntry.file cam ((t1 :: ts).getLastD t0)] := by
    rw [buildPlaylist, playlistLoop_eq_pairs]
  have hchain : List.Chain (· ≤ ·) t0 (t0 :: t1 :: ts) := by
    rw [List.chain_cons]
    exact ⟨le_refl t0, (List.chain'_iff_pairwise).mpr hs⟩
  refine ⟨hshape, ?_, ?_, ?_, ?_, ?_⟩
  · rw [hshape]
    simp [withDiffs, playlistOfPairs]
  · rw [hshape, fileTimesOf_append, fileTimesOf_pairs, withDiffs_fst]
    simp [fileTimesOf]
  · intro d hd
    rw [hshape, durationsOf_append, durationsOf_pairs] at hd
    simp only [durationsOf, List.append_nil] at hd
    exact withDiffs_snd_nonneg t0 (t0 :: t1 :: ts) hchain d hd
  · rw [hshape, durationsOf_append, durationsOf_pairs]
    simp only [durationsOf, List.append_nil]
    rw [withDiffs_snd_sum]
    simp [List.getLastD_cons]
  · rw [hshape]
    exact List.getLast?_concat _

/-- C4 (witness): the playlist for `frame_times = [1, 3, 7]`. -/
theorem buildPlaylist_structure_witness :
    buildPlaylist "cam" 1 [3, 7] =
        playlistOfPairs "cam" (withDiffs 1 [1, 3, 7]) ++
          [PlaylistEntry.file "cam" ([(3 : ℚ), 7].getLastD 1)] ∧
      (buildPlaylist "cam" 1 [3, 7]).head? = some (PlaylistEntry.file "cam" 1) ∧
      fileTimesOf (buildPlaylist "cam" 1 [3, 7]) =
        [(1 : ℚ), 3, 7] ++ [[(3 : ℚ), 7].getLastD 1] ∧
      (∀ d ∈ durationsOf (buildPlaylist "cam" 1 [3, 7]), 0 ≤ d) ∧
      (durationsOf (buildPlaylist "cam" 1 [3, 7])).sum =
        [(3 : ℚ), 7].getLastD 1 - 1 ∧
      (buildPlaylist "cam" 1 [3, 7]).getLast? =
        some (PlaylistEntry.file "cam" ([(3 : ℚ), 7].getLastD 1)) :=
  buildPlaylist_structure "cam" 1 3 [7]
    (by norm_num [List.sorted_cons])

theorem admittedList_rate (tr : List FrameInput) (s : PreviewRecorder) :
    (admittedList s tr).Pairwise (fun a b => a + 1 ≤ b) ∧
      ∀ x ∈ admittedList s tr, s.last_output_time + 1 ≤ x := by
  induction tr generalizing s with
  | nil => simp [admittedList]
  | cons i rest ih =>
      obtain ⟨ihp, ihb⟩ := ih (stepState s i)
      have hlast : (stepState s i).last_output_time =
          if (shouldWriteFrame s i.objs i.boxes i.time).1 then i.time
          else s.last_output_time := by
        simp only [stepState]
        exact wd_last_eq s i.objs i.boxes i.time
      by_cases hadm : (writeData s i.objs i.boxes i.time).admitted = true
      · have hswf : (shouldWriteFrame s i.objs i.boxes i.time).1 = true := by
          rw [← wd_admitted_eq s i.objs i.boxes i.time]
          exact hadm
        have hrate : s.last_output_time + 1 ≤ i.time :=
          swf_true_rate s i.objs i.boxes i.time hswf
        have hstep : (stepState s i).last_output_time = i.time := by
          rw [hlast, hswf]
          simp
        simp only [admittedList, hadm, if_true, List.singleton_append]
        constructor
        · rw [List.pairwise_cons]
          refine ⟨fun b hb => ?_, ihp⟩
          have := ihb b hb
          rw [hstep] at this
          exact this
        · intro x hx
          rcases List.mem_cons.mp hx with rfl | hx
          · exact hrate
          · have := ihb x hx
            rw [hstep] at this
            linarith
      · have hswf : (shouldWriteFrame s i.objs i.boxes i.time).1 = false := by
          rw [← wd_admitted_eq s i.objs i.boxes i.time]
          exact Bool.not_eq_true _ |>.mp hadm
        have hstep : (stepState s i).last_output_time = s.last_output_time := by
          rw [hlast, hswf]
          simp
        simp only [admittedList, hadm, if_false, List.nil_append]
        rw [hstep] at ihb
        exact ⟨ihp, ihb⟩

/-- C7: across any sequence of `write_data` calls starting from a fresh
recorder, the Admission Policy never admits two frames whose timestamps are
less than `1/SUMMARY_OUTPUT_FPS` (= 1 second) apart: any later admitted
frame's timestamp exceeds any earlier admitted one by at least that much. -/
theorem admission_rate_limit (tr : List FrameInput) :
    (admittedList initialState tr).Pairwise
      (fun a b => 1 / SUMMARY_OUTPUT_FPS ≤ b - a) := by
  refine ((admittedList_rate tr initialState).1).imp ?_
  intro a b hab
  simp only [SUMMARY_OUTPUT_FPS, one_div_one]
  linarith

theorem stepState_bufferInv (s : PreviewRecorder) (i : FrameInput)
    (rest : List FrameInput)
    (hmono : ∀ j ∈ rest, i.time ≤ j.time)
    (h : BufferInv s (i :: rest)) : BufferInv (stepState s i) rest := by
  obtain ⟨h1, h2, h3, h4, h5, h6⟩ := h
  have hmem : i ∈ i :: rest := List.mem_cons_self i rest
  simp only [stepState]
  rw [writeData_eq]
  by_cases hadm : (shouldWriteFrame s i.objs i.boxes i.time).1 = true
  · have hrate : s.last_output_time + 1 ≤ i.time :=
      swf_true_rate s i.objs i.boxes i.time hadm
    have htpos : (0 : ℚ) < i.time := by linarith
    by_cases hcl : SUMMARY_SEGMENT_DURATION <
        i.time - (if s.start_time = 0 then i.time else s.start_time)
    · rw [if_pos hcl]
      have hclean :
          ({ start_time := i.time,
             last_output_time :=
               if (shouldWriteFrame s i.objs i.boxes i.time).1 then i.time
               else s.last_output_time,
             output_frames := [] } : PreviewRecorder) =
            { start_time := i.time, last_output_time := i.time,
              output_frames := [] } := by
        simp [hadm]
      rw [hclean]
      exact ⟨by simp, by simp, by simp, by simp, Or.inr hmono, le_of_lt htpos⟩
    · rw [if_neg hcl]
      have hclean :
          ({ start_time := if s.start_time = 0 then i.time else s.start_time,
             last_output_time :=
               if (shouldWriteFrame s i.objs i.boxes i.time).1 then i.time
               else s.last_output_time,
             output_frames := s.output_frames ++
               (if (shouldWriteFrame s i.objs i.boxes i.time).1 then [i.time]
                else []) } : PreviewRecorder) =
            { start_time := if s.start_time = 0 then i.time else s.start_time,
              last_output_time := i.time,
              output_frames := s.output_frames ++ [i.time] } := by
        simp [hadm]
      rw [hclean]
      refine ⟨?_, ?_, ?_, ?_, ?_, le_of_lt htpos⟩
      · show List.Sorted (· ≤ ·) (s.output_frames ++ [i.time])
        rw [List.Sorted, List.pairwise_append]
        refine ⟨h1, by simp, fun a ha b hb => ?_⟩
        rw [List.mem_singleton] at hb
        subst hb
        exact h3 a ha i hmem
      · intro x hx
        rcases List.mem_append.mp hx with hx | hx
        · by_cases h0 : s.start_time = 0
          · rw [h4 h0] at hx
            exact absurd hx (List.not_mem_nil x)
          · show (if s.start_time = 0 then i.time else s.start_time) ≤ x
            rw [if_neg h0]
            exact h2 x hx
        · rw [List.mem_singleton] at hx
          subst hx
          show (if s.start_time = 0 then i.time else s.start_time) ≤ i.time
          by_cases h0 : s.start_time = 0
          · rw [if_pos h0]
          · rw [if_neg h0]
            rcases h5 with h5 | h5
            · exact absurd h5 h0
            · exact h5 i hmem
      · intro x hx j hj
        rcases List.mem_append.mp hx with hx | hx
        · exact h3 x hx j (List.mem_cons_of_mem i hj)
        · rw [List.mem_singleton] at hx
          subst hx
          exact hmono j hj
      · intro hst
        exfalso
        by_cases h0 : s.start_time = 0
        · rw [if_pos h0] at hst
          exact (ne_of_gt htpos) hst
        · rw [if_neg h0] at hst
          exact h0 hst
      · by_cases h0 : s.start_time = 0
        · show (if s.start_time = 0 then i.time else s.start_time) = 0 ∨ _
          rw [if_pos h0]
          exact Or.inr fun j hj => hmono j hj
        · show (if s.start_time = 0 then i.time else s.start_time) = 0 ∨ _
          rw [if_neg h0]
          rcases h5 with h5 | h5
          · exact absurd h5 h0
          · exact Or.inr fun j hj => h5 j (List.mem_cons_of_mem i hj)
  · have hadm' : (shouldWriteFrame s i.objs i.boxes i.time).1 = false :=
      (Bool.not_eq_true _).mp hadm
    by_cases hcl : SUMMARY_SEGMENT_DURATION <
        i.time - (if s.start_time = 0 then i.time else s.start_time)
    · rw [if_pos hcl]
      have hclean :
          ({ start_time := i.time,
             last_output_time :=
               if (shouldWriteFrame s i.objs i.boxes i.time).1 then i.time
               else s.last_output_time,
             output_frames := [] } : PreviewRecorder) =
            { start_time := i.time, last_output_time := s.last_output_time,
              output_frames := [] } := by
        simp [hadm']
      rw [hclean]
      exact ⟨by simp, by simp, by simp, by simp, Or.inr hmono, h6⟩
    · rw [if_neg hcl]
      have hclean :
          ({ start_time := if s.start_time = 0 then i.time else s.start_time,
             last_output_time :=
               if (shouldWriteFrame s i.objs i.boxes i.time).1 then i.time
               else s.last_output_time,
             output_frames := s.output_frames ++
               (if (shouldWriteFrame s i.objs i.boxes i.time).1 then [i.time]
                else []) } : PreviewRecorder) =
            { start_time := if s.start_time = 0 then i.time else s.start_time,
              last_output_time := s.last_output_time,
              output_frames := s.output_frames } := by
        simp [hadm']
      rw [hclean]
      refine ⟨h1, ?_, ?_, ?_, ?_, h6⟩
      · intro x hx
        by_cases h0 : s.start_time = 0
        · rw [h4 h0] at hx
          exact absurd hx (List.not_mem_nil x)
        · show (if s.start_time = 0 then i.time else s.start_time) ≤ x
          rw [if_neg h0]
          exact h2 x hx
      · intro x hx j hj
        exact h3 x hx j (List.mem_cons_of_mem i hj)
      · intro hst
        by_cases h0 : s.start_time = 0
        · exact h4 h0
        · rw [if_neg h0] at hst
          exact absurd hst h0
      · by_cases h0 : s.start_time = 0
        · show (if s.start_time = 0 then i.time else s.start_time) = 0 ∨ _
          rw [if_pos h0]
          exact Or.inr fun j hj => hmono j hj
        · show (if s.start_time = 0 then i.time else s.start_time) = 0 ∨ _
          rw [if_neg h0]
          rcases h5 with h5 | h5
          · exact absurd h5 h0
          · exact Or.inr fun j hj => h5 j (List.mem_cons_of_mem i hj)

theorem processTrace_bufferInv (tr : List FrameInput) (s : PreviewRecorder)
    (hs : (tr.map FrameInput.time).Sorted (· ≤ ·))
    (h : BufferInv s tr) : BufferInv (processTrace s tr) [] := by
  induction tr generalizing s with
  | nil => exact h
  | cons i rest ih =>
      rw [List.map_cons, List.sorted_cons] at hs
      have hmono : ∀ j ∈ rest, i.time ≤ j.time := fun j hj =>
        hs.1 j.time (List.mem_map_of_mem FrameInput.time hj)
      exact ih (stepState s i) hs.2 (stepState_bufferInv s i rest hmono h)

/-- C8: starting from a fresh recorder, if frames are delivered with
non-decreasing timestamps, then after the calls the open window's
`output_frames` list is non-decreasing and every entry lies at or after the
window's `start_time`.  (Applying the theorem to each prefix of a trace gives
the property after every individual call.) -/
theorem output_frames_sorted_and_bounded (tr : List FrameInput)
    (hs : (tr.map FrameInput.time).Sorted (· ≤ ·)) :
    (processTrace initialState tr).output_frames.Sorted (· ≤ ·) ∧
      ∀ x ∈ (processTrace initialState tr).output_frames,
        (processTrace initialState tr).start_time ≤ x := by
  have h := processTrace_bufferInv tr initialState hs
    (by simp [BufferInv, initialState])
  exact ⟨h.1, h.2.1⟩

/-- C8 (witness): the trace delivering an admitted frame at t=1 (one motion
box) and a rejected frame at t=2. -/
theorem output_frames_sorted_and_bounded_witness :
    (processTrace initialState [⟨[], [[0]], 1⟩, ⟨[], [], 2⟩]).output_frames.Sorted
        (· ≤ ·) ∧
      ∀ x ∈ (processTrace initialState [⟨[], [[0]], 1⟩, ⟨[], [], 2⟩]).output_frames,
        (processTrace initialState [⟨[], [[0]], 1⟩, ⟨[], [], 2⟩]).start_time ≤ x :=
  output_frames_sorted_and_bounded [⟨[], [[0]], 1⟩, ⟨[], [], 2⟩]
    (by norm_num [List.sorted_cons])
